import Mathlib

/-!
Verification of the HyperDAG platform custom STARK engine
(`src/zkp-circuits/src/custom_stark.rs`) and the hierarchical scorer
(`src/zkp-circuits/src/hierarchical_scoring.rs`).

The Rust source is shallowly embedded:
* machine integers (`u32`, `u64`, `usize`) become `Nat` with explicit
  `% 2^32` / `% 2^64` exactly where the source wraps;
* the external Blake3 hash is an abstract parameter
  `H : List Nat → List Nat` (bytes in, 32 digest bytes out): the code
  never inspects digests other than comparing bytes, so every theorem
  quantifies over `H`;
* the external ChaCha20 RNG is an abstract stream `rng : Nat → Nat`
  giving the successive `next_u64` outputs;
* fallible Rust functions returning `Result` become `Except ZKPError`;
* the loops of the source are embedded with explicit fuel equal to the
  bound the corresponding machine-integer loop variable enforces
  (64 for loops that halve or shift a `u64`/`usize`).
-/

namespace HyperDag

/-- BabyBear modulus, `p = 2^31 - 2^27 + 1` (`BABY_BEAR_MODULUS`). -/
def MODULUS : Nat := 2013265921

/-- Bound of `u64` arithmetic. -/
def U64 : Nat := 18446744073709551616

/-- Bound of `u32` arithmetic. -/
def U32 : Nat := 4294967296

/-- `BabyBearField::new`: reduce the stored `u64` payload. -/
def fnew (v : Nat) : Nat := v % MODULUS

/-- `impl Add for BabyBearField`: `Self::new(self.0.wrapping_add(rhs.0))`. -/
def fadd (a b : Nat) : Nat := ((a + b) % U64) % MODULUS

/-- `impl Sub for BabyBearField`:
`Self::new(self.0.wrapping_sub(rhs.0).wrapping_add(Self::MODULUS))`.
`wrapping_sub a b` on `u64` is `(a + (2^64 - b % 2^64)) % 2^64`. -/
def fsub (a b : Nat) : Nat :=
  ((((a + (U64 - b % U64)) % U64) + MODULUS) % U64) % MODULUS

/-- `impl Mul for BabyBearField`: widen to `u128`, reduce, then `new`
reduces again (the cast of `product % MODULUS` back to `u64` is lossless). -/
def fmul (a b : Nat) : Nat := ((a * b) % MODULUS) % MODULUS

/-- `impl Neg for BabyBearField`: `0` maps to `0`, otherwise `MODULUS - a`. -/
def fneg (a : Nat) : Nat := if a = 0 then 0 else MODULUS - a

/-- Body of the `while e > 0` loop of `BabyBearField::pow`, with fuel:
the exponent is a `u64`, so 64 halvings always reach `0` and the fuel of
`fpow` is never exhausted on source-representable inputs. -/
def powLoop : Nat → Nat → Nat → Nat → Nat
  | 0, result, _, _ => result
  | fuel + 1, result, base, e =>
    if e = 0 then result
    else powLoop fuel (if e % 2 = 1 then fmul result base else result) (fmul base base) (e / 2)

/-- `BabyBearField::pow`: square-and-multiply, right-to-left. -/
def fpow (a e : Nat) : Nat := powLoop 64 1 a e

/-- `BabyBearField::inverse`: `None` at zero, else Fermat. -/
def finv (a : Nat) : Option Nat :=
  if a = 0 then none else some (fpow a (MODULUS - 2))

/-- Little-endian byte expansion of a machine integer, `k` bytes wide
(`u64::to_le_bytes` / `usize::to_le_bytes` are `toLeBytes 8`). -/
def toLeBytes : Nat → Nat → List Nat
  | 0, _ => []
  | k + 1, x => x % 256 :: toLeBytes k (x / 256)

/-- `u64::to_le_bytes`, and `BabyBearField::to_bytes` on the payload. -/
def toLe8 (x : Nat) : List Nat := toLeBytes 8 x

/-- Little-endian byte recomposition (`u64::from_le_bytes`). -/
def fromLeBytes : List Nat → Nat
  | [] => 0
  | b :: rest => b + 256 * fromLeBytes rest

/-- `RepIDCategory` from `lib.rs`. -/
inductive RepIDCategory where
  | Governance
  | Community
  | Technical
  | FaithTech
  | DeFi
  | Custom (label : String)
deriving DecidableEq

/-- `DecayParameters` from `lib.rs`. The `f32` field
`multiplicative_factor` is idealized as an exact rational. -/
structure DecayParameters where
  base_decay_rate : Nat
  multiplicative_factor : ℚ
  min_threshold : Nat
deriving DecidableEq

/-- `ZKPError` from `lib.rs`. -/
inductive ZKPError where
  | CircuitError (msg : String)
  | ProofGenerationError (msg : String)
  | VerificationError (msg : String)
  | InvalidInput (msg : String)
  | SerializationError (msg : String)
deriving DecidableEq

/-- `ExecutionTrace`: a dense row-major matrix of field-element
payloads. -/
structure ExecutionTrace where
  width : Nat
  height : Nat
  data : List (List Nat)
deriving DecidableEq

/-- `ExecutionTrace::get`: bounds-guarded read, zero out of range. -/
def ExecutionTrace.get (t : ExecutionTrace) (row col : Nat) : Nat :=
  if row < t.height ∧ col < t.width then (t.data.getD row []).getD col 0 else 0

/-- `FriProof`. -/
structure FriProof where
  commitments : List (List Nat)
  final_poly : List Nat
  pow_nonce : Nat
deriving DecidableEq

/-- `QueryResponse`. -/
structure QueryResponse where
  position : Nat
  value : Nat
  auth_path : List (List Nat)
deriving DecidableEq

/-- `StarkProof`. -/
structure StarkProof where
  trace_root : List Nat
  lde_root : List Nat
  fri_proof : FriProof
  queries : List QueryResponse
  public_inputs : List Nat
deriving DecidableEq

deriving instance DecidableEq for Except

/-- The decay branch of `create_threshold_trace` (lines 308-320 of
`custom_stark.rs`): `f32` arithmetic is idealized as exact rationals and
the `as u32` cast becomes floor with saturation; `saturating_sub` is
`Nat` subtraction. -/
def traceDecay (total tw ts : Nat) (d : DecayParameters) : Nat :=
  if tw < ts then
    let amount := min (Int.toNat ⌊(total : ℚ) * ((d.base_decay_rate : ℚ) / 10000)
      * (((ts - tw : Nat) : ℚ) / 86400)⌋) (U32 - 1)
    let f := total - amount
    if f < d.min_threshold then d.min_threshold else f
  else total

/-- `CustomStarkProver::create_threshold_trace`. The source loops the
same assignments over all 8 rows of a zeroed `6 + k` wide trace, filling
columns 0,1,2, then the `k` scores, then `final_score`,
`meets_threshold` and the validity flag 1, so every row is the list
built here. The wall-clock sample `chrono::Utc::now().timestamp()` is
the explicit parameter `ts`. `total_score` accumulates with `u32`
arithmetic. The `Result` return is always `Ok`. -/
def createThresholdTrace (user_scores : List (RepIDCategory × Nat))
    (threshold time_window : Nat) (decay_params : Option DecayParameters)
    (ts : Nat) : ExecutionTrace :=
  let total := (user_scores.map (fun cs => cs.2)).sum % U32
  let final := match decay_params with
    | none => total
    | some d => traceDecay total time_window ts d
  let meets := if threshold ≤ final then 1 else 0
  let row := fnew threshold :: fnew time_window :: fnew ts ::
    (user_scores.map (fun cs => fnew cs.2) ++ [fnew final, fnew meets, 1])
  { width := 6 + user_scores.length, height := 8, data := List.replicate 8 row }

/-- `CustomStarkProver::create_biometric_trace`: a 8-wide, 4-row trace;
every row is challenge field, hash field, the four factor bits,
`all_verified` and the validity flag 1. The challenge and hash fields
are `BabyBearField::new` of the first 8 little-endian bytes. -/
def createBiometricTrace (webauthn_challenge biometric_hash : List Nat)
    (factor_proofs : List Bool) : ExecutionTrace :=
  let chf := fnew (fromLeBytes (webauthn_challenge.take 8))
  let hf := fnew (fromLeBytes (biometric_hash.take 8))
  let allv := if factor_proofs.all (fun b => b) then 1 else 0
  let row := chf :: hf ::
    (factor_proofs.map (fun b => if b then 1 else 0) ++ [allv, 1])
  { width := 8, height := 4, data := List.replicate 4 row }

/-- `CustomStarkProver::generate_threshold_constraints`: per row, the
residuals `col0 - threshold`, `col1 - time_window`, and
`col[width-1] - (1 if col[width-2] >= threshold else 0)` — the source
reads its "final_score" from column `width-2` and its "meets_threshold"
from column `width-1`. The `Result` return is always `Ok`. -/
def genThresholdConstraints (t : ExecutionTrace) (threshold time_window : Nat) :
    List (List Nat) :=
  (List.range t.height).map (fun row =>
    [fsub (t.get row 0) (fnew threshold),
     fsub (t.get row 1) (fnew time_window),
     fsub (t.get row (t.width - 1))
       (if threshold ≤ t.get row (t.width - 2) then 1 else 0)])

/-- `CustomStarkProver::generate_biometric_constraints`. -/
def genBiometricConstraints (t : ExecutionTrace) (webauthn_challenge : List Nat) :
    List (List Nat) :=
  let chf := fnew (fromLeBytes (webauthn_challenge.take 8))
  (List.range t.height).map (fun row =>
    [fsub (t.get row 0) chf,
     fsub (t.get row 6)
       (fmul (fmul (fmul (t.get row 2) (t.get row 3)) (t.get row 4)) (t.get row 5))])

/-- The byte stream hashed by `commit_to_trace`: rows outer, columns
inner, 8 little-endian bytes per cell. -/
def serializeTrace (t : ExecutionTrace) : List Nat :=
  (t.data.map (fun row => (row.map toLe8).flatten)).flatten

/-- `CustomStarkProver::commit_to_trace` (and `commit_to_lde`), with the
Blake3 hasher abstracted as `H`. -/
def commitToTrace (H : List Nat → List Nat) (t : ExecutionTrace) : List Nat :=
  H (serializeTrace t)

/-- `CustomStarkProver::compute_lde`: copy the first `height` rows and
fill row `r >= height` of column `c` with
`trace[r % height][c] * F::new(r+1)`. -/
def computeLde (blowup : Nat) (t : ExecutionTrace) : ExecutionTrace :=
  let eh := t.height * blowup
  { width := t.width, height := eh,
    data := (List.range eh).map (fun r =>
      (List.range t.width).map (fun c =>
        if r < t.height then t.get r c
        else fmul (t.get (r % t.height) c) (fnew (r + 1)))) }

/-- ASCII bytes of the PoW domain tag `b"RepID_PoW"`. -/
def powTag : List Nat := [82, 101, 112, 73, 68, 95, 80, 111, 87]

/-- Byte stream hashed by the PoW grinder and by
`verify_proof_of_work`: tag then the 8 little-endian nonce bytes. -/
def powMsg (nonce : Nat) : List Nat := powTag ++ toLe8 nonce

/-- The PoW success test: first two digest bytes are zero
(`hash.as_bytes()[0] == 0 && hash.as_bytes()[1] == 0`). -/
def powOk (H : List Nat → List Nat) (nonce : Nat) : Bool :=
  ((H (powMsg nonce)).getD 0 1 == 0) && ((H (powMsg nonce)).getD 1 1 == 0)

/-- The PoW grinding loop of `generate_fri_proof`: starting from the
current nonce, break on success, otherwise increment and fail once the
incremented nonce exceeds 1,000,000. The fuel counts the remaining
iterations (`1000001 - nonce`); started at 1000001 from nonce 0 it is
never exhausted before the counter check fires. -/
def grindLoop (H : List Nat → List Nat) : Nat → Nat → Option Nat
  | 0, _ => none
  | fuel + 1, nonce =>
    if powOk H nonce then some nonce
    else if 1000000 < nonce + 1 then none
    else grindLoop H fuel (nonce + 1)

/-- The PoW grinder: nonce from 0, at most 1,000,001 hash evaluations. -/
def grindPow (H : List Nat → List Nat) : Option Nat := grindLoop H 1000001 0

/-- The FRI folding loop of `generate_fri_proof`: while the working size
exceeds 16, commit to the hash of its 8 little-endian bytes and halve.
The working size is a `usize`, so 64 halvings always end the loop and
the fuel of 64 is never exhausted on source-representable sizes. -/
def friCommitsLoop (H : List Nat → List Nat) : Nat → Nat → List (List Nat)
  | 0, _ => []
  | fuel + 1, s => if 16 < s then H (toLe8 s) :: friCommitsLoop H fuel (s / 2) else []

/-- The working polynomial size left when the FRI folding loop stops. -/
def friFinalSize : Nat → Nat → Nat
  | 0, s => s
  | fuel + 1, s => if 16 < s then friFinalSize fuel (s / 2) else s

/-- `CustomStarkProver::generate_fri_proof`: folding commitments, the
constant final polynomial `[ONE; min(size, 8)]`, and the PoW nonce; the
only error is the PoW timeout. The `_constraints` argument is unused by
the source as well. -/
def generateFriProof (H : List Nat → List Nat) (lde : ExecutionTrace)
    (_constraints : List (List Nat)) : Except ZKPError FriProof :=
  match grindPow H with
  | none => Except.error (ZKPError.ProofGenerationError "PoW timeout")
  | some nonce =>
    Except.ok
      { commitments := friCommitsLoop H 64 lde.height,
        final_poly := List.replicate (min (friFinalSize 64 lde.height) 8) 1,
        pow_nonce := nonce }

/-- The Merkle-path loop of `generate_queries`: while the current size
exceeds 1, hash the 8 little-endian bytes of the sibling position
`pos ^ 1`, then halve position and size. Fuel 64 as for the FRI loop. -/
def authPathLoop (H : List Nat → List Nat) : Nat → Nat → Nat → List (List Nat)
  | 0, _, _ => []
  | fuel + 1, pos, size =>
    if 1 < size then
      H (toLe8 (Nat.xor pos 1)) :: authPathLoop H fuel (pos / 2) (size / 2)
    else []

/-- `CustomStarkProver::generate_queries`: `num_queries` positions drawn
from the RNG stream modulo `lde.height`, each answered with the first
column of the LDE and a simplified Merkle path. The `Result` return is
always `Ok` and the `_fri_proof` argument is unused by the source. -/
def generateQueries (H : List Nat → List Nat) (rng : Nat → Nat)
    (num_queries : Nat) (lde : ExecutionTrace) : List QueryResponse :=
  (List.range num_queries).map (fun i =>
    let position := rng i % lde.height
    { position := position,
      value := lde.get position 0,
      auth_path := authPathLoop H 64 position lde.height })

/-- `CustomStarkProver::prove_threshold_verification`, with the prover
state `(num_queries, blowup_factor, rng)` and the Blake3 hash passed
explicitly; public inputs are `[F(threshold), F(time_window)]`. -/
def proveThresholdVerification (H : List Nat → List Nat) (rng : Nat → Nat)
    (num_queries blowup_factor : Nat) (user_scores : List (RepIDCategory × Nat))
    (threshold time_window : Nat) (decay_params : Option DecayParameters)
    (ts : Nat) : Except ZKPError StarkProof :=
  let trace := createThresholdTrace user_scores threshold time_window decay_params ts
  let constraints := genThresholdConstraints trace threshold time_window
  let trace_commitment := commitToTrace H trace
  let lde := computeLde blowup_factor trace
  let lde_commitment := commitToTrace H lde
  match generateFriProof H lde constraints with
  | Except.error e => Except.error e
  | Except.ok fri =>
    Except.ok
      { trace_root := trace_commitment,
        lde_root := lde_commitment,
        fri_proof := fri,
        queries := generateQueries H rng num_queries lde,
        public_inputs := [fnew threshold, fnew time_window] }

/-- `CustomStarkProver::prove_biometric_verification`; the public input
is the field element of the challenge's first 8 little-endian bytes. -/
def proveBiometricVerification (H : List Nat → List Nat) (rng : Nat → Nat)
    (num_queries blowup_factor : Nat)
    (webauthn_challenge biometric_hash : List Nat) (factor_proofs : List Bool) :
    Except ZKPError StarkProof :=
  let trace := createBiometricTrace webauthn_challenge biometric_hash factor_proofs
  let constraints := genBiometricConstraints trace webauthn_challenge
  let trace_commitment := commitToTrace H trace
  let lde := computeLde blowup_factor trace
  let lde_commitment := commitToTrace H lde
  match generateFriProof H lde constraints with
  | Except.error e => Except.error e
  | Except.ok fri =>
    Except.ok
      { trace_root := trace_commitment,
        lde_root := lde_commitment,
        fri_proof := fri,
        queries := generateQueries H rng num_queries lde,
        public_inputs := [fnew (fromLeBytes (webauthn_challenge.take 8))] }

/-- `CustomStarkVerifier::verify_proof_of_work`: recompute the PoW
digest and require two leading zero bytes. The source wraps this `bool`
in `Ok` and `verify_proof` immediately unwraps it with `?`; since no
error is ever constructed, the embedding keeps the plain `Bool`. -/
def verifyProofOfWork (H : List Nat → List Nat) (fp : FriProof) : Bool :=
  powOk H fp.pow_nonce

/-- `CustomStarkVerifier::verify_threshold_proof`: at least two public
inputs, `threshold = public_inputs[0] as u32` in `[1, 1000]`, and
`time_window = public_inputs[1]` nonzero. -/
def verifyThresholdProof (proof : StarkProof) : Except ZKPError Bool :=
  if proof.public_inputs.length < 2 then Except.ok false
  else if proof.public_inputs.getD 0 0 % U32 = 0 ∨
      1000 < proof.public_inputs.getD 0 0 % U32 then Except.ok false
  else if proof.public_inputs.getD 1 0 = 0 then Except.ok false
  else Except.ok true

/-- `CustomStarkVerifier::verify_biometric_proof`: nonempty public
inputs and a nonzero challenge field element. -/
def verifyBiometricProof (proof : StarkProof) : Except ZKPError Bool :=
  if proof.public_inputs.isEmpty then Except.ok false
  else Except.ok (decide (0 < proof.public_inputs.getD 0 0))

/-- `CustomStarkVerifier::verify_proof`: structural query count, PoW,
nonempty FRI commitments, field range of the public inputs, then the
type-specific check selected by the tag with a default of `Ok(true)`.
The verifier's `blowup_factor` field is never read. -/
def verifyProof (H : List Nat → List Nat) (num_queries _blowup_factor : Nat)
    (proof : StarkProof) (proof_type : String) : Except ZKPError Bool :=
  if proof.queries.length ≠ num_queries then Except.ok false
  else if verifyProofOfWork H proof.fri_proof = false then Except.ok false
  else if proof.fri_proof.commitments.isEmpty then Except.ok false
  else if proof.public_inputs.any (fun input => decide (MODULUS ≤ input)) then
    Except.ok false
  else if proof_type = "threshold_verification" then verifyThresholdProof proof
  else if proof_type = "biometric_4fa" then verifyBiometricProof proof
  else Except.ok true

/-- `ScoreResult` from `hierarchical_scoring.rs`; the four `f32` scores
are truncated to `u32` on output by the source. -/
structure ScoreResult where
  base_score : Nat
  synergy_bonus : Nat
  multiplicative_bonus : Nat
  final_score : Nat
  active_categories : List RepIDCategory
  decay_applied : Bool
  timestamp : Nat
deriving DecidableEq

/-- `HierarchicalScorer`: the two `HashMap`s become association lists
with distinct keys; `f32` weights are idealized as exact rationals. -/
structure HierarchicalScorer where
  category_weights : List (RepIDCategory × ℚ)
  decay_config : Option DecayParameters
  synergy_matrix : List ((RepIDCategory × RepIDCategory) × ℚ)

/-- `HashMap::get` on `category_weights`. -/
def weightLookup (l : List (RepIDCategory × ℚ)) (c : RepIDCategory) : Option ℚ :=
  (l.find? (fun kv => decide (kv.1 = c))).map (fun kv => kv.2)

/-- `HashMap::get` on `synergy_matrix`. -/
def synergyLookup (l : List ((RepIDCategory × RepIDCategory) × ℚ))
    (k : RepIDCategory × RepIDCategory) : Option ℚ :=
  (l.find? (fun kv => decide (kv.1 = k))).map (fun kv => kv.2)

/-- `HierarchicalScorer::new`: the default weights and the three
one-directional default synergies. -/
def HierarchicalScorer.new : HierarchicalScorer :=
  { category_weights :=
      [(RepIDCategory.Governance, 1), (RepIDCategory.Community, 4 / 5),
       (RepIDCategory.Technical, 6 / 5), (RepIDCategory.FaithTech, 9 / 10),
       (RepIDCategory.DeFi, 11 / 10)],
    decay_config := none,
    synergy_matrix :=
      [((RepIDCategory.Governance, RepIDCategory.Technical), 13 / 10),
       ((RepIDCategory.Community, RepIDCategory.FaithTech), 5 / 4),
       ((RepIDCategory.Technical, RepIDCategory.DeFi), 6 / 5)] }

/-- The base-score loop of `calculate_score`: every entry with positive
raw score pushes its category onto `active_categories` and adds
`raw_score * weight`, with `unwrap_or(&1.0)` as the default weight. -/
def calcBase (weights : List (RepIDCategory × ℚ))
    (user_scores : List (RepIDCategory × Nat)) : ℚ × List RepIDCategory :=
  user_scores.foldl (fun acc cs =>
    if 0 < cs.2 then
      (acc.1 + (cs.2 : ℚ) * ((weightLookup weights cs.1).getD 1), acc.2 ++ [cs.1])
    else acc) (0, [])

/-- `user_scores.iter().find(..)` as used in the synergy loop. -/
def scoreOf (user_scores : List (RepIDCategory × Nat)) (c : RepIDCategory) : ℚ :=
  ((user_scores.find? (fun p => decide (p.1 = c))).map (fun p => (p.2 : ℚ))).getD 0

/-- The nested `i < j` synergy loop of `calculate_score`. -/
def synergyBonusLoop (syn : List ((RepIDCategory × RepIDCategory) × ℚ))
    (us : List (RepIDCategory × Nat)) : List RepIDCategory → ℚ
  | [] => 0
  | c :: rest =>
    (rest.map (fun d =>
      match synergyLookup syn (c, d) with
      | some m => (scoreOf us c + scoreOf us d) * (m - 1)
      | none => 0)).sum + synergyBonusLoop syn us rest

/-- The `as u32` cast of an idealized `f32`: truncate toward zero and
saturate into `[0, 2^32)`. -/
def toU32 (q : ℚ) : Nat := min (Int.toNat ⌊q⌋) (U32 - 1)

/-- `HierarchicalScorer::calculate_score` with `f32` idealized as `ℚ`. -/
def calculateScore (scorer : HierarchicalScorer)
    (user_scores : List (RepIDCategory × Nat)) (timestamp time_window : Nat) :
    ScoreResult :=
  let ba := calcBase scorer.category_weights user_scores
  let syn := synergyBonusLoop scorer.synergy_matrix user_scores ba.2
  let f0 := ba.1 + syn
  let fd : ℚ × Bool :=
    match scorer.decay_config with
    | some d =>
      if time_window < timestamp then
        let amount := f0 * ((d.base_decay_rate : ℚ) / 10000)
          * (((timestamp - time_window : Nat) : ℚ) / 86400)
        let f1 := f0 - amount
        (if f1 < (d.min_threshold : ℚ) then (d.min_threshold : ℚ) else f1, true)
      else (f0, false)
    | none => (f0, false)
  let multBonus : ℚ :=
    match scorer.decay_config with
    | some d => (ba.2.length : ℚ) * d.multiplicative_factor
    | none => 0
  { base_score := toU32 ba.1,
    synergy_bonus := toU32 syn,
    multiplicative_bonus := toU32 multBonus,
    final_score := toU32 (fd.1 + multBonus),
    active_categories := ba.2,
    decay_applied := fd.2,
    timestamp := timestamp }

/-- An all-zero 32-byte digest, used as a concrete hash output. -/
def zeroDigest : List Nat := List.replicate 32 0

/-- An all-one 32-byte digest, used as a concrete hash output. -/
def oneDigest : List Nat := List.replicate 32 1

/-- A concrete hash instance under which every digest starts with two
zero bytes, so the PoW grinder succeeds at nonce 0. -/
def H0 : List Nat → List Nat := fun _ => zeroDigest

/-- A concrete RNG stream that always yields 0. -/
def rng0 : Nat → Nat := fun _ => 0

/-- A concrete hash instance whose digests start with a nonzero byte
except on the PoW message of nonce 1,000,000. -/
def Hb : List Nat → List Nat :=
  fun m => if m = powMsg 1000000 then zeroDigest else oneDigest

/-- The threshold proof produced by the prover under `H0` and `rng0`
with one query and blowup 3 on the witness
`[(Technical, 75)]`, `threshold = 100`, `time_window = 86400`. -/
def P0 : StarkProof :=
  { trace_root := zeroDigest, lde_root := zeroDigest,
    fri_proof :=
      { commitments := [zeroDigest], final_poly := List.replicate 8 1,
        pow_nonce := 0 },
    queries := [{ position := 0, value := 100,
                  auth_path := List.replicate 4 zeroDigest }],
    public_inputs := [100, 86400] }

theorem powLoop_spec (fuel : Nat) :
    ∀ e result base, e < 2 ^ fuel → result < MODULUS →
      powLoop fuel result base e = (result * base ^ e) % MODULUS := by
  induction fuel with
  | zero =>
    intro e result base he hr
    have he0 : e = 0 := by omega
    subst he0
    simp [powLoop, Nat.mod_eq_of_lt hr]
  | succ fuel ih =>
    intro e result base he hr
    by_cases he0 : e = 0
    · subst he0
      simp [powLoop, Nat.mod_eq_of_lt hr]
    · rw [powLoop, if_neg he0]
      have hdiv : e / 2 < 2 ^ fuel := by
        rw [pow_succ] at he
        omega
      have hmodlt : ∀ x : Nat, x % MODULUS < MODULUS :=
        fun x => Nat.mod_lt _ (by decide)
      have hlt : (if e % 2 = 1 then fmul result base else result) < MODULUS := by
        by_cases hpar : e % 2 = 1
        · rw [if_pos hpar, fmul]
          exact hmodlt _
        · rw [if_neg hpar]
          exact hr
      rw [ih (e / 2) _ (fmul base base) hdiv hlt]
      have hfm : ∀ x y : Nat, fmul x y = (x * y) % MODULUS := by
        intro x y
        rw [fmul, Nat.mod_mod_of_dvd _ dvd_rfl]
      have hbb : (base * base) ^ (e / 2) = base ^ (2 * (e / 2)) := by
        rw [pow_mul, pow_two]
      by_cases hpar : e % 2 = 1
      · rw [if_pos hpar, hfm, hfm]
        have hcong : (result * base) % MODULUS * ((base * base) % MODULUS) ^ (e / 2)
            % MODULUS = (result * base * (base * base) ^ (e / 2)) % MODULUS :=
          (Nat.mod_modEq (result * base) MODULUS).mul
            ((Nat.mod_modEq (base * base) MODULUS).pow (e / 2))
        rw [hcong, mul_assoc, hbb, ← pow_succ']
        have hexp : 2 * (e / 2) + 1 = e := by omega
        rw [hexp]
      · rw [if_neg hpar, hfm]
        have hcong : result * ((base * base) % MODULUS) ^ (e / 2) % MODULUS
            = (result * (base * base) ^ (e / 2)) % MODULUS :=
          Nat.ModEq.mul_left result ((Nat.mod_modEq (base * base) MODULUS).pow (e / 2))
        rw [hcong, hbb]
        have hexp : 2 * (e / 2) = e := by omega
        rw [hexp]

theorem fpow_spec (a e : Nat) (he : e < U64) : fpow a e = a ^ e % MODULUS := by
  have h : e < 2 ^ 64 := he
  rw [fpow, powLoop_spec 64 e 1 a h (by decide), one_mul]

theorem zmod_fpow (a e : Nat) (he : e < U64) :
    ((a : ZMod MODULUS)) ^ e = ((fpow a e : ℕ) : ZMod MODULUS) := by
  rw [fpow_spec a e he, ZMod.natCast_mod, Nat.cast_pow]

theorem zmod_cast_ne_one (x : Nat) (hx : x < MODULUS) (hne : x ≠ 1) :
    ((x : ℕ) : ZMod MODULUS) ≠ 1 := by
  haveI : Fact (1 < MODULUS) := ⟨by decide⟩
  intro h
  have hv := congrArg ZMod.val h
  rw [ZMod.val_natCast_of_lt hx, ZMod.val_one] at hv
  exact hne hv

/-- The BabyBear modulus is prime, by a Lucas certificate with
primitive root 31 and `MODULUS - 1 = 2^27 * 3 * 5`. -/
theorem babyBearPrime : Nat.Prime MODULUS := by
  apply lucas_primality MODULUS ((31 : ℕ) : ZMod MODULUS)
  · rw [show MODULUS - 1 = 2013265920 from by decide,
      zmod_fpow 31 2013265920 (by decide),
      show fpow 31 2013265920 = 1 from by decide]
    exact Nat.cast_one
  · intro q hq hdvd
    have hfac : q ∣ 2 ^ 27 * 15 := by
      rwa [show MODULUS - 1 = 2 ^ 27 * 15 from by decide] at hdvd
    have hq235 : q = 2 ∨ q = 3 ∨ q = 5 := by
      rcases (Nat.Prime.dvd_mul hq).1 hfac with h2 | h15
      · exact Or.inl ((Nat.prime_dvd_prime_iff_eq hq Nat.prime_two).1
          (hq.dvd_of_dvd_pow h2))
      · rcases (Nat.Prime.dvd_mul hq).1
          (show q ∣ 3 * 5 from h15) with h3 | h5
        · exact Or.inr (Or.inl ((Nat.prime_dvd_prime_iff_eq hq (by norm_num)).1 h3))
        · exact Or.inr (Or.inr ((Nat.prime_dvd_prime_iff_eq hq (by norm_num)).1 h5))
    rcases hq235 with h | h | h <;> subst h
    · rw [show (MODULUS - 1) / 2 = 1006632960 from by decide,
        zmod_fpow 31 1006632960 (by decide)]
      exact zmod_cast_ne_one _ (by decide) (by decide)
    · rw [show (MODULUS - 1) / 3 = 671088640 from by decide,
        zmod_fpow 31 671088640 (by decide)]
      exact zmod_cast_ne_one _ (by decide) (by decide)
    · rw [show (MODULUS - 1) / 5 = 402653184 from by decide,
        zmod_fpow 31 402653184 (by decide)]
      exact zmod_cast_ne_one _ (by decide) (by decide)

theorem fermat_little (a : Nat) (h1 : 1 ≤ a) (h2 : a < MODULUS) :
    a ^ (MODULUS - 1) % MODULUS = 1 := by
  haveI : Fact (Nat.Prime MODULUS) := ⟨babyBearPrime⟩
  haveI : Fact (1 < MODULUS) := ⟨by decide⟩
  have hne : ((a : ℕ) : ZMod MODULUS) ≠ 0 := by
    rw [Ne, ZMod.natCast_zmod_eq_zero_iff_dvd]
    intro hdvd
    exact absurd (Nat.le_of_dvd (by omega) hdvd) (by omega)
  have hpow : ((a : ZMod MODULUS)) ^ (MODULUS - 1) = 1 :=
    ZMod.pow_card_sub_one_eq_one hne
  have hc : ((a ^ (MODULUS - 1) % MODULUS : ℕ) : ZMod MODULUS) = 1 := by
    rw [ZMod.natCast_mod, Nat.cast_pow]
    exact hpow
  have hv := congrArg ZMod.val hc
  rwa [ZMod.val_natCast_of_lt (Nat.mod_lt _ (by decide)), ZMod.val_one] at hv

/-- C7: for reduced representatives `a, b < p`, BabyBear subtraction
(implemented with wrapping `u64` arithmetic) equals `(a + p - b) mod p`
with a reduced result, and `add`, `mul`, `neg` likewise compute
`(a+b) mod p`, `(a*b) mod p` and `(p-a) mod p` with reduced results. -/
theorem babyBear_ops_correct (a b : Nat) (ha : a < MODULUS) (hb : b < MODULUS) :
    fsub a b = (a + MODULUS - b) % MODULUS ∧ fsub a b < MODULUS ∧
    fadd a b = (a + b) % MODULUS ∧ fadd a b < MODULUS ∧
    fmul a b = (a * b) % MODULUS ∧ fmul a b < MODULUS ∧
    fneg a = (MODULUS - a) % MODULUS ∧ fneg a < MODULUS := by
  have ha2 : a < 2013265921 := ha
  have hb2 : b < 2013265921 := hb
  refine ⟨?_, ?_, ?_, ?_, ?_, ?_, ?_, ?_⟩
  · show ((((a + (18446744073709551616 - b % 18446744073709551616))
        % 18446744073709551616) + 2013265921) % 18446744073709551616)
        % 2013265921 = (a + 2013265921 - b) % 2013265921
    omega
  · show ((((a + (18446744073709551616 - b % 18446744073709551616))
        % 18446744073709551616) + 2013265921) % 18446744073709551616)
        % 2013265921 < 2013265921
    omega
  · show ((a + b) % 18446744073709551616) % 2013265921 = (a + b) % 2013265921
    omega
  · show ((a + b) % 18446744073709551616) % 2013265921 < 2013265921
    omega
  · rw [fmul]
    exact Nat.mod_mod_of_dvd _ dvd_rfl
  · show ((a * b) % 2013265921) % 2013265921 < 2013265921
    omega
  · rw [fneg]
    by_cases h0 : a = 0
    · rw [if_pos h0, h0, Nat.sub_zero, Nat.mod_self]
    · rw [if_neg h0, Nat.mod_eq_of_lt (by omega)]
  · show (if a = 0 then 0 else 2013265921 - a) < 2013265921
    by_cases h0 : a = 0
    · rw [if_pos h0]
      omega
    · rw [if_neg h0]
      omega

/-- Closed witness for `babyBear_ops_correct` at `a = 5`, `b = 7`. -/
theorem babyBear_ops_correct_witness :
    fsub 5 7 = (5 + MODULUS - 7) % MODULUS ∧ fsub 5 7 < MODULUS ∧
    fadd 5 7 = (5 + 7) % MODULUS ∧ fadd 5 7 < MODULUS ∧
    fmul 5 7 = (5 * 7) % MODULUS ∧ fmul 5 7 < MODULUS ∧
    fneg 5 = (MODULUS - 5) % MODULUS ∧ fneg 5 < MODULUS :=
  babyBear_ops_correct 5 7 (by decide) (by decide)

/-- C8: `inverse` is `None` exactly at zero and otherwise returns
`pow(a, p-2)`, which is a genuine multiplicative inverse for every
reduced nonzero representative. -/
theorem babyBear_inverse_correct :
    (∀ a, finv a = none ↔ a = 0) ∧
    (∀ a, 1 ≤ a → a < MODULUS →
      finv a = some (fpow a (MODULUS - 2)) ∧ fmul a (fpow a (MODULUS - 2)) = 1) := by
  constructor
  · intro a
    constructor
    · intro h
      by_contra h0
      rw [finv, if_neg h0] at h
      exact Option.some_ne_none _ h
    · intro h
      rw [finv, if_pos h]
  · intro a h1 h2
    constructor
    · rw [finv, if_neg (by omega)]
    · rw [fmul, Nat.mod_mod_of_dvd _ dvd_rfl,
        fpow_spec a (MODULUS - 2) (by decide)]
      have hcong : a * (a ^ (MODULUS - 2) % MODULUS) % MODULUS
          = (a * a ^ (MODULUS - 2)) % MODULUS :=
        Nat.ModEq.mul_left a (Nat.mod_modEq (a ^ (MODULUS - 2)) MODULUS)
      rw [hcong, ← pow_succ']
      have hexp : MODULUS - 2 + 1 = MODULUS - 1 := by decide
      rw [hexp]
      exact fermat_little a h1 h2

/-- Closed witness for `babyBear_inverse_correct` at `a = 2`. -/
theorem babyBear_inverse_correct_witness :
    finv 2 = some (fpow 2 (MODULUS - 2)) ∧ fmul 2 (fpow 2 (MODULUS - 2)) = 1 :=
  babyBear_inverse_correct.2 2 (by decide) (by decide)

theorem getD_mem_of_lt (l : List Nat) (i d : Nat) (h : i < l.length) :
    l.getD i d ∈ l := by
  rw [List.getD_eq_getElem l d h]
  exact List.getElem_mem h

/-- Helper: the full case analysis of `verify_proof` on the
`threshold_verification` tag. -/
theorem verifyThresholdRun (H : List Nat → List Nat)
    (nq b : Nat) (pf : StarkProof) :
    (∃ bl, verifyProof H nq b pf "threshold_verification" = Except.ok bl) ∧
    (verifyProof H nq b pf "threshold_verification" = Except.ok true ↔
      (pf.queries.length = nq ∧ powOk H pf.fri_proof.pow_nonce = true ∧
       pf.fri_proof.commitments ≠ [] ∧
       (∀ x ∈ pf.public_inputs, x < MODULUS) ∧
       2 ≤ pf.public_inputs.length ∧
       1 ≤ pf.public_inputs.getD 0 0 ∧ pf.public_inputs.getD 0 0 ≤ 1000 ∧
       0 < pf.public_inputs.getD 1 0)) := by
  constructor
  · rw [verifyProof, verifyThresholdProof, verifyBiometricProof]
    split_ifs <;> exact ⟨_, rfl⟩
  · rw [verifyProof, verifyThresholdProof, verifyBiometricProof]
    split_ifs with hq hpw hce hin hty hlen hth htw hbio hemp
    · simp only [Except.ok.injEq]
      constructor
      · intro h
        exact absurd h (by decide)
      · intro h
        exact absurd h.1 hq
    · rw [verifyProofOfWork] at hpw
      simp only [Except.ok.injEq]
      constructor
      · intro h
        exact absurd h (by decide)
      · intro h
        rw [h.2.1] at hpw
        exact absurd hpw (by decide)
    · simp only [Except.ok.injEq]
      rw [List.isEmpty_iff] at hce
      constructor
      · intro h
        exact absurd h (by decide)
      · intro h
        exact absurd hce h.2.2.1
    · simp only [Except.ok.injEq]
      rw [List.any_eq_true] at hin
      obtain ⟨x, hx, hxge⟩ := hin
      rw [decide_eq_true_eq] at hxge
      constructor
      · intro h
        exact absurd h (by decide)
      · intro h
        exact absurd (h.2.2.2.1 x hx) (by omega)
    · simp only [Except.ok.injEq]
      constructor
      · intro h
        exact absurd h (by decide)
      · intro h
        omega
    · -- all structural checks pass, the range check on the threshold fails
      have hall : ∀ x ∈ pf.public_inputs, x < MODULUS := by
        intro x hx
        by_contra hge
        exact hin (List.any_eq_true.2 ⟨x, hx, decide_eq_true (by omega)⟩)
      have h0lt : pf.public_inputs.getD 0 0 < MODULUS :=
        hall _ (getD_mem_of_lt _ _ _ (by omega))
      have hmod : pf.public_inputs.getD 0 0 % U32 = pf.public_inputs.getD 0 0 :=
        Nat.mod_eq_of_lt (by
          have : MODULUS < U32 := by decide
          omega)
      rw [hmod] at hth
      simp only [Except.ok.injEq]
      constructor
      · intro h
        exact absurd h (by decide)
      · intro h
        omega
    · simp only [Except.ok.injEq]
      constructor
      · intro h
        exact absurd h (by decide)
      · intro h
        omega
    · -- everything passes
      have hall : ∀ x ∈ pf.public_inputs, x < MODULUS := by
        intro x hx
        by_contra hge
        exact hin (List.any_eq_true.2 ⟨x, hx, decide_eq_true (by omega)⟩)
      have h0lt : pf.public_inputs.getD 0 0 < MODULUS :=
        hall _ (getD_mem_of_lt _ _ _ (by omega))
      have hmod : pf.public_inputs.getD 0 0 % U32 = pf.public_inputs.getD 0 0 :=
        Nat.mod_eq_of_lt (by
          have : MODULUS < U32 := by decide
          omega)
      rw [hmod] at hth
      simp only [Except.ok.injEq, true_iff]
      refine ⟨by omega, ?_, ?_, hall, by omega, by omega, by omega, by omega⟩
      · rw [verifyProofOfWork] at hpw
        revert hpw
        cases powOk H pf.fri_proof.pow_nonce <;> simp
      · rw [List.isEmpty_iff] at hce
        exact hce
    · exact absurd rfl hty
    · exact absurd rfl hty
    · exact absurd rfl hty

/-- C2: `verify_proof` on the `threshold_verification` tag never errors,
and returns `Ok(true)` exactly when the query count matches, the PoW
digest has two leading zero bytes, the FRI commitment list is nonempty,
every public input is a reduced field element, there are at least two
public inputs, the threshold input lies in `[1, 1000]` and the
time-window input is nonzero. -/
theorem verify_threshold_characterization (H : List Nat → List Nat)
    (nq b : Nat) (pf : StarkProof) :
    (∃ bl, verifyProof H nq b pf "threshold_verification" = Except.ok bl) ∧
    (verifyProof H nq b pf "threshold_verification" = Except.ok true ↔
      (pf.queries.length = nq ∧ powOk H pf.fri_proof.pow_nonce = true ∧
       pf.fri_proof.commitments ≠ [] ∧
       (∀ x ∈ pf.public_inputs, x < MODULUS) ∧
       2 ≤ pf.public_inputs.length ∧
       1 ≤ pf.public_inputs.getD 0 0 ∧ pf.public_inputs.getD 0 0 ≤ 1000 ∧
       0 < pf.public_inputs.getD 1 0)) :=
  verifyThresholdRun H nq b pf

/-- C9: any tag other than the two recognized ones gets no type-specific
check: the verifier returns `Ok(true)` as soon as the query count, the
PoW, the nonempty-commitments check and the field-range check pass. -/
theorem verify_generic_tag (H : List Nat → List Nat) (nq b : Nat)
    (pf : StarkProof) (tag : String)
    (h1 : tag ≠ "threshold_verification") (h2 : tag ≠ "biometric_4fa")
    (h3 : pf.queries.length = nq)
    (h4 : powOk H pf.fri_proof.pow_nonce = true)
    (h5 : pf.fri_proof.commitments ≠ [])
    (h6 : ∀ x ∈ pf.public_inputs, x < MODULUS) :
    verifyProof H nq b pf tag = Except.ok true := by
  rw [verifyProof]
  rw [if_neg (by omega)]
  rw [verifyProofOfWork, h4, if_neg (by decide)]
  rw [if_neg (by
    rw [List.isEmpty_iff]
    exact h5)]
  rw [if_neg (by
    intro hany
    rw [List.any_eq_true] at hany
    obtain ⟨x, hx, hxge⟩ := hany
    rw [decide_eq_true_eq] at hxge
    exact absurd (h6 x hx) (by omega))]
  rw [if_neg h1, if_neg h2]

/-- Closed witness for `verify_generic_tag`: a structurally well-formed
proof with the tag `"generic"` verifies as true. -/
theorem verify_generic_tag_witness :
    verifyProof H0 0 4
      { trace_root := zeroDigest, lde_root := zeroDigest,
        fri_proof := { commitments := [zeroDigest], final_poly := [],
                       pow_nonce := 0 },
        queries := [], public_inputs := [] } "generic" = Except.ok true :=
  verify_generic_tag H0 0 4 _ "generic" (by decide) (by decide) rfl
    (by decide) (by decide) (by
      intro x hx
      exact absurd hx (List.not_mem_nil x))

theorem grindLoop_some (H : List Nat → List Nat) :
    ∀ fuel nonce n, grindLoop H fuel nonce = some n →
      powOk H n = true ∧ nonce ≤ n ∧
        ∀ m, nonce ≤ m → m < n → powOk H m = false := by
  intro fuel
  induction fuel with
  | zero =>
    intro nonce n h
    exact absurd h (by rw [grindLoop]; simp)
  | succ fuel ih =>
    intro nonce n h
    rw [grindLoop] at h
    by_cases hp : powOk H nonce = true
    · rw [if_pos hp] at h
      have heq : nonce = n := by
        injection h
      subst heq
      exact ⟨hp, le_refl _, fun m h1 h2 => by omega⟩
    · rw [if_neg hp] at h
      by_cases hcap : 1000000 < nonce + 1
      · rw [if_pos hcap] at h
        exact absurd h (by simp)
      · rw [if_neg hcap] at h
        obtain ⟨h1, h2, h3⟩ := ih (nonce + 1) n h
        refine ⟨h1, by omega, ?_⟩
        intro m hm1 hm2
        by_cases hm : m = nonce
        · subst hm
          revert hp
          cases powOk H m <;> simp
        · exact h3 m (by omega) hm2

theorem grindLoop_found (H : List Nat → List Nat) :
    ∀ fuel nonce n, nonce ≤ n → n < nonce + fuel → n ≤ 1000000 →
      powOk H n = true → (∀ m, nonce ≤ m → m < n → powOk H m = false) →
      grindLoop H fuel nonce = some n := by
  intro fuel
  induction fuel with
  | zero =>
    intro nonce n h1 h2
    omega
  | succ fuel ih =>
    intro nonce n h1 h2 h3 h4 h5
    rw [grindLoop]
    by_cases heq : nonce = n
    · subst heq
      rw [if_pos h4]
    · have hlt : nonce < n := by omega
      rw [if_neg (by simp [h5 nonce (le_refl _) hlt])]
      rw [if_neg (by omega : ¬1000000 < nonce + 1)]
      exact ih (nonce + 1) n (by omega) (by omega) h3 h4
        (fun m hm1 hm2 => h5 m (by omega) hm2)

theorem grindLoop_none_iff (H : List Nat → List Nat) :
    ∀ fuel nonce, nonce + fuel = 1000001 →
      (grindLoop H fuel nonce = none ↔
        ∀ m, nonce ≤ m → m ≤ 1000000 → powOk H m = false) := by
  intro fuel
  induction fuel with
  | zero =>
    intro nonce hsum
    constructor
    · intro _ m hm1 hm2
      omega
    · intro _
      rw [grindLoop]
  | succ fuel ih =>
    intro nonce hsum
    rw [grindLoop]
    by_cases hp : powOk H nonce = true
    · rw [if_pos hp]
      constructor
      · intro h
        exact absurd h (by simp)
      · intro h
        have hf := h nonce (le_refl _) (by omega)
        rw [hp] at hf
        exact absurd hf (by simp)
    · rw [if_neg hp]
      by_cases hcap : 1000000 < nonce + 1
      · rw [if_pos hcap]
        constructor
        · intro _ m hm1 hm2
          have hm : m = nonce := by omega
          subst hm
          revert hp
          cases powOk H m <;> simp
        · intro _
          rfl
      · rw [if_neg hcap]
        rw [ih (nonce + 1) (by omega)]
        constructor
        · intro h m hm1 hm2
          by_cases hm : m = nonce
          · subst hm
            revert hp
            cases powOk H m <;> simp
          · exact h m (by omega) hm2
        · intro h m hm1 hm2
          exact h m (by omega) hm2

theorem fromLe_toLe : ∀ k x, fromLeBytes (toLeBytes k x) = x % 256 ^ k := by
  intro k
  induction k with
  | zero =>
    intro x
    rw [toLeBytes, fromLeBytes, pow_zero, Nat.mod_one]
  | succ k ih =>
    intro x
    rw [toLeBytes, fromLeBytes, ih (x / 256), pow_succ', Nat.mod_mul]

theorem toLe8_injective (x y : Nat) (hx : x < U64) (hy : y < U64)
    (h : toLe8 x = toLe8 y) : x = y := by
  have h1 := congrArg fromLeBytes h
  rw [toLe8, toLe8, fromLe_toLe, fromLe_toLe] at h1
  have e : (256 : Nat) ^ 8 = U64 := by decide
  rw [e, Nat.mod_eq_of_lt hx, Nat.mod_eq_of_lt hy] at h1
  exact h1

theorem powMsg_injective (x y : Nat) (hx : x < U64) (hy : y < U64)
    (h : powMsg x = powMsg y) : x = y :=
  toLe8_injective x y hx hy (List.append_cancel_left h)

/-- C5 counterexample: the grinder does not time out exactly when the
first 1,000,000 nonces fail — under a hash on which only nonce
1,000,000 satisfies the PoW condition, every nonce below 1,000,000
fails yet the grinder succeeds (it tries 1,000,001 nonces). -/
theorem pow_grinder_budget_counterexample :
    ¬ ((∀ H : List Nat → List Nat, ∀ n, grindPow H = some n →
          powOk H n = true ∧ ∀ m, m < n → powOk H m = false) ∧
       (∀ H : List Nat → List Nat,
          grindPow H = none ↔ ∀ n, n < 1000000 → powOk H n = false)) := by
  rintro ⟨-, hiff⟩
  have hfail : ∀ n, n < 1000000 → powOk Hb n = false := by
    intro n hn
    have hne : powMsg n ≠ powMsg 1000000 := by
      intro he
      have hb1 : (1000000 : Nat) < U64 := by decide
      have := powMsg_injective n 1000000 (by omega) hb1 he
      omega
    rw [powOk]
    rw [show Hb (powMsg n) = oneDigest from by rw [Hb, if_neg hne]]
    decide
  have hnone := (hiff Hb).2 hfail
  have hsome : grindPow Hb = some 1000000 := by
    rw [grindPow]
    apply grindLoop_found Hb 1000001 0 1000000 (by omega) (by omega) (by omega)
    · rw [powOk]
      rw [show Hb (powMsg 1000000) = zeroDigest from by rw [Hb, if_pos rfl]]
      decide
    · intro m hm1 hm2
      exact hfail m hm2
  rw [hsome] at hnone
  exact absurd hnone (by simp)

/-- C5 amended: the grinder returns the least nonce satisfying the PoW
condition, and it returns the `PoW timeout` error exactly when no nonce
`n ≤ 1,000,000` satisfies the condition (the loop tries the 1,000,001
nonces `0..=1_000_000`, one more than a 1,000,000-iteration budget). -/
theorem pow_grinder_spec (H : List Nat → List Nat) :
    (∀ n, grindPow H = some n →
      powOk H n = true ∧ ∀ m, m < n → powOk H m = false) ∧
    (grindPow H = none ↔ ∀ n, n ≤ 1000000 → powOk H n = false) := by
  constructor
  · intro n h
    obtain ⟨h1, h2, h3⟩ := grindLoop_some H 1000001 0 n h
    exact ⟨h1, fun m hm => h3 m (by omega) hm⟩
  · constructor
    · intro h n hn
      exact (grindLoop_none_iff H 1000001 0 (by omega)).1 h n (by omega) hn
    · intro h
      exact (grindLoop_none_iff H 1000001 0 (by omega)).2 (fun m _ hm => h m hm)

/-- Closed witness for `pow_grinder_spec`: under the all-zero hash the
grinder stops at nonce 0, which indeed satisfies the PoW condition. -/
theorem pow_grinder_spec_witness :
    grindPow H0 = some 0 ∧ powOk H0 0 = true :=
  ⟨by decide, ((pow_grinder_spec H0).1 0 (by decide)).1⟩

theorem generateQueries_length (H : List Nat → List Nat) (rng : Nat → Nat)
    (n : Nat) (lde : ExecutionTrace) : (generateQueries H rng n lde).length = n := by
  rw [generateQueries, List.length_map, List.length_range]

theorem friCommitsLoop_ne_nil (H : List Nat → List Nat) (s : Nat) (hs : 16 < s) :
    friCommitsLoop H 64 s ≠ [] := by
  rw [show (64 : Nat) = 63 + 1 from rfl, friCommitsLoop, if_pos hs]
  simp

theorem generateFriProof_ok (H : List Nat → List Nat) (lde : ExecutionTrace)
    (cs : List (List Nat)) (fri : FriProof)
    (h : generateFriProof H lde cs = Except.ok fri) :
    powOk H fri.pow_nonce = true ∧
      fri.commitments = friCommitsLoop H 64 lde.height := by
  rw [generateFriProof] at h
  cases hg : grindPow H with
  | none =>
    rw [hg] at h
    exact absurd h (by simp)
  | some n =>
    rw [hg] at h
    injection h with h2
    subst h2
    exact ⟨(grindLoop_some H 1000001 0 n hg).1, rfl⟩

/-- C1 amended: every proof the prover actually returns verifies as
true, provided the LDE height `trace_height * blowup_factor` exceeds 16
(otherwise the FRI commitment list is empty and the verifier rejects),
and the public inputs survive the type-specific sanity checks: for
threshold proofs `1 ≤ threshold mod p ≤ 1000` and
`time_window mod p ≠ 0`, for biometric proofs a nonzero reduced
challenge field element. -/
theorem prover_verifier_completeness (H : List Nat → List Nat)
    (rng : Nat → Nat) (nq bf : Nat) :
    (∀ us thr tw dp ts pf,
      proveThresholdVerification H rng nq bf us thr tw dp ts = Except.ok pf →
      16 < 8 * bf → 1 ≤ fnew thr → fnew thr ≤ 1000 → fnew tw ≠ 0 →
      verifyProof H nq bf pf "threshold_verification" = Except.ok true) ∧
    (∀ ch bh facts pf,
      proveBiometricVerification H rng nq bf ch bh facts = Except.ok pf →
      16 < 4 * bf → fnew (fromLeBytes (ch.take 8)) ≠ 0 →
      verifyProof H nq bf pf "biometric_4fa" = Except.ok true) := by
  have hfnew : ∀ x, fnew x < MODULUS := fun x => Nat.mod_lt _ (by decide)
  constructor
  · intro us thr tw dp ts pf hok hb hth1 hth2 htw
    simp only [proveThresholdVerification] at hok
    cases hg : generateFriProof H
        (computeLde bf (createThresholdTrace us thr tw dp ts))
        (genThresholdConstraints (createThresholdTrace us thr tw dp ts) thr tw) with
    | error e =>
      rw [hg] at hok
      exact absurd hok (by simp)
    | ok fri =>
      rw [hg] at hok
      simp only [Except.ok.injEq] at hok
      obtain ⟨hpw, hcom⟩ := generateFriProof_ok H _ _ fri hg
      subst hok
      apply (verifyThresholdRun H nq bf _).2.mpr
      refine ⟨generateQueries_length H rng nq _, hpw, ?_, ?_, by simp, ?_, ?_, ?_⟩
      · rw [hcom]
        exact friCommitsLoop_ne_nil H _ (by
          show 16 < (createThresholdTrace us thr tw dp ts).height * bf
          rw [show (createThresholdTrace us thr tw dp ts).height = 8 from rfl]
          omega)
      · intro x hx
        simp only [List.mem_cons, List.not_mem_nil, or_false] at hx
        rcases hx with rfl | rfl
        · exact hfnew thr
        · exact hfnew tw
      · exact hth1
      · exact hth2
      · show 0 < fnew tw
        omega
  · intro ch bh facts pf hok hb hch
    simp only [proveBiometricVerification] at hok
    cases hg : generateFriProof H
        (computeLde bf (createBiometricTrace ch bh facts))
        (genBiometricConstraints (createBiometricTrace ch bh facts) ch) with
    | error e =>
      rw [hg] at hok
      exact absurd hok (by simp)
    | ok fri =>
      rw [hg] at hok
      simp only [Except.ok.injEq] at hok
      obtain ⟨hpw, hcom⟩ := generateFriProof_ok H _ _ fri hg
      subst hok
      rw [verifyProof]
      rw [if_neg (by
        rw [generateQueries_length]
        omega)]
      rw [verifyProofOfWork]
      rw [if_neg (by
        show ¬powOk H fri.pow_nonce = false
        rw [hpw]
        decide)]
      rw [if_neg (by
        rw [List.isEmpty_iff, hcom]
        exact friCommitsLoop_ne_nil H _ (by
          show 16 < (createBiometricTrace ch bh facts).height * bf
          rw [show (createBiometricTrace ch bh facts).height = 4 from rfl]
          omega))]
      rw [if_neg (by
        intro hany
        rw [List.any_eq_true] at hany
        obtain ⟨x, hx, hxge⟩ := hany
        rw [decide_eq_true_eq] at hxge
        simp only [List.mem_cons, List.not_mem_nil, or_false] at hx
        subst hx
        exact absurd (hfnew (fromLeBytes (ch.take 8))) (by omega))]
      rw [if_neg (by decide), if_pos rfl]
      rw [verifyBiometricProof]
      rw [if_neg (by simp)]
      have : (0 < fnew (fromLeBytes (ch.take 8))) := by omega
      simp [this]

/-- Closed witness for `prover_verifier_completeness`: under the
all-zero hash and zero RNG stream, with one query and blowup 3, the
prover on witness `[(Technical, 75)]`, threshold 100 and time window
86400 returns exactly the proof `P0`, and `P0` verifies as true. -/
theorem prover_verifier_completeness_witness :
    proveThresholdVerification H0 rng0 1 3 [(RepIDCategory.Technical, 75)]
      100 86400 none 0 = Except.ok P0 ∧
    verifyProof H0 1 3 P0 "threshold_verification" = Except.ok true :=
  ⟨by decide,
   (prover_verifier_completeness H0 rng0 1 3).1 [(RepIDCategory.Technical, 75)]
     100 86400 none 0 P0 (by decide) (by decide) (by decide) (by decide)
     (by decide)⟩

/-- C1 counterexample: at security level Fast, `(num_queries,
blowup_factor) = (40, 4)`, the biometric prover succeeds (here under a
hash whose digests open with two zero bytes, so PoW grinding stops at
nonce 0) but its proof has an empty FRI commitment list — the biometric
LDE height is `4 * 4 = 16`, the folding loop never runs — and
`verify_proof` returns false, not true. -/
theorem prover_verifier_completeness_counterexample :
    (match proveBiometricVerification H0 rng0 40 4 (List.replicate 32 1)
        (List.replicate 32 2) [true, true, true, true] with
     | Except.ok pf => verifyProof H0 40 4 pf "biometric_4fa"
     | Except.error e => Except.error e) = Except.ok false := by
  decide

/-- C3 (code bug): on the honest threshold trace for witness
`[(Technical, 75)]`, threshold 100, time window 86400, no decay,
timestamp 0, the trace row is
`[threshold, time_window, timestamp, score, final_score,
meets_threshold, validity] = [100, 86400, 0, 75, 75, 0, 1]` — an honest
trace — yet the residual vector of `generate_threshold_constraints` on
row 0 is `[0, 0, 1]`: the third residual is nonzero because the source
reads its "final_score" from column `width-2` (which holds
`meets_threshold`) and its "meets_threshold" from column `width-1`
(which holds the constant validity flag), one column to the right of
the layout documented by `create_threshold_trace`. -/
theorem threshold_constraints_nonzero_on_honest_trace :
    (createThresholdTrace [(RepIDCategory.Technical, 75)] 100 86400 none 0).data.getD 0 []
      = [100, 86400, 0, 75, 75, 0, 1] ∧
    (genThresholdConstraints
        (createThresholdTrace [(RepIDCategory.Technical, 75)] 100 86400 none 0)
        100 86400).getD 0 [] = [0, 0, 1] := by
  decide

/-- C4 (code bug): the wall-clock timestamp is written into trace
column 2, so for any injective digest function the committed trace root
of two otherwise identical threshold runs at timestamps 0 and 1
differs, and the proofs are not byte-identical. -/
theorem trace_commitment_depends_on_wall_clock (H : List Nat → List Nat)
    (hinj : Function.Injective H) :
    commitToTrace H
        (createThresholdTrace [(RepIDCategory.Technical, 75)] 100 86400 none 0) ≠
      commitToTrace H
        (createThresholdTrace [(RepIDCategory.Technical, 75)] 100 86400 none 1) := by
  intro h
  have h2 := hinj h
  exact absurd h2 (by decide)

/-- Closed witness for `trace_commitment_depends_on_wall_clock` at the
identity digest function. -/
theorem trace_commitment_depends_on_wall_clock_witness :
    commitToTrace (fun l => l)
        (createThresholdTrace [(RepIDCategory.Technical, 75)] 100 86400 none 0) ≠
      commitToTrace (fun l => l)
        (createThresholdTrace [(RepIDCategory.Technical, 75)] 100 86400 none 1) :=
  trace_commitment_depends_on_wall_clock (fun l => l) (fun _ _ h => h)

theorem getD_range_map {α : Type} (f : Nat → α) (n i : Nat) (d : α) (h : i < n) :
    ((List.range n).map f).getD i d = f i := by
  rw [List.getD_eq_getElem _ d (by
    rw [List.length_map, List.length_range]
    exact h)]
  simp

/-- C6 counterexample: with blowup factor 0 the extended trace is empty,
so its "first `height` rows" do not replicate the source rows. -/
theorem compute_lde_counterexample :
    (computeLde 0 ⟨1, 1, [[5]]⟩).get 0 0 ≠ (⟨1, 1, [[5]]⟩ : ExecutionTrace).get 0 0 := by
  decide

/-- C6 amended: for every trace and every blowup factor `b ≥ 1`,
`compute_lde` keeps the width, extends the height to `height * b`,
copies the first `height` rows, and fills row `r ≥ height` of column `c`
with `trace[r mod height][c] * F(r+1)`. -/
theorem compute_lde_spec (bf : Nat) (t : ExecutionTrace) (hb : 1 ≤ bf) :
    (computeLde bf t).width = t.width ∧
    (computeLde bf t).height = t.height * bf ∧
    (∀ r, r < t.height → ∀ c, c < t.width →
      (computeLde bf t).get r c = t.get r c) ∧
    (∀ r, t.height ≤ r → r < t.height * bf → ∀ c, c < t.width →
      (computeLde bf t).get r c = fmul (t.get (r % t.height) c) (fnew (r + 1))) := by
  have hdata : (computeLde bf t).data = (List.range (t.height * bf)).map (fun r =>
      (List.range t.width).map (fun c =>
        if r < t.height then t.get r c
        else fmul (t.get (r % t.height) c) (fnew (r + 1)))) := rfl
  refine ⟨rfl, rfl, ?_, ?_⟩
  · intro r hr c hc
    have hrb : r < t.height * bf := by
      have := Nat.mul_le_mul_left t.height hb
      omega
    have hget : (computeLde bf t).get r c =
        ((computeLde bf t).data.getD r []).getD c 0 := by
      rw [ExecutionTrace.get, if_pos ⟨hrb, hc⟩]
    rw [hget, hdata, getD_range_map _ _ _ _ hrb, getD_range_map _ _ _ _ hc,
      if_pos hr]
  · intro r hr1 hr2 c hc
    have hget : (computeLde bf t).get r c =
        ((computeLde bf t).data.getD r []).getD c 0 := by
      rw [ExecutionTrace.get, if_pos ⟨hr2, hc⟩]
    rw [hget, hdata, getD_range_map _ _ _ _ hr2, getD_range_map _ _ _ _ hc,
      if_neg (by omega)]

/-- Closed witness for `compute_lde_spec` on a one-cell trace with
blowup 2: the copied row and the extended row both check out. -/
theorem compute_lde_spec_witness :
    (computeLde 2 ⟨1, 1, [[5]]⟩).height = 2 ∧
    (computeLde 2 ⟨1, 1, [[5]]⟩).get 0 0 = (⟨1, 1, [[5]]⟩ : ExecutionTrace).get 0 0 ∧
    (computeLde 2 ⟨1, 1, [[5]]⟩).get 1 0 =
      fmul ((⟨1, 1, [[5]]⟩ : ExecutionTrace).get (1 % 1) 0) (fnew (1 + 1)) := by
  have h := compute_lde_spec 2 ⟨1, 1, [[5]]⟩ (by decide)
  exact ⟨h.2.1, h.2.2.1 0 (by decide) 0 (by decide),
    h.2.2.2 1 (by decide) (by decide) 0 (by decide)⟩

theorem calcBase_foldl_aux (weights : List (RepIDCategory × ℚ)) :
    ∀ (us : List (RepIDCategory × Nat)) (b : ℚ) (a : List RepIDCategory),
      us.foldl (fun acc cs =>
        if 0 < cs.2 then
          (acc.1 + (cs.2 : ℚ) * ((weightLookup weights cs.1).getD 1),
           acc.2 ++ [cs.1])
        else acc) (b, a) =
      (b + ((us.filter (fun p => decide (0 < p.2))).map
          (fun p => (p.2 : ℚ) * ((weightLookup weights p.1).getD 1))).sum,
       a ++ (us.filter (fun p => decide (0 < p.2))).map (fun p => p.1)) := by
  intro us
  induction us with
  | nil =>
    intro b a
    simp
  | cons hd tl ih =>
    intro b a
    rw [List.foldl_cons]
    by_cases h : 0 < hd.2
    · rw [if_pos h, ih]
      rw [List.filter_cons, if_pos (by
        rw [decide_eq_true_eq]
        exact h)]
      rw [List.map_cons, List.sum_cons, List.map_cons]
      rw [add_assoc, List.append_assoc, List.singleton_append]
    · rw [if_neg h, ih]
      rw [List.filter_cons, if_neg (by
        rw [decide_eq_true_eq]
        exact h)]

/-- The base-score phase of `calculate_score` in closed form: the sum of
`raw * weight` over the entries with positive raw score, and those
entries' categories in order. -/
theorem calcBase_spec (weights : List (RepIDCategory × ℚ))
    (us : List (RepIDCategory × Nat)) :
    calcBase weights us =
      (((us.filter (fun p => decide (0 < p.2))).map
          (fun p => (p.2 : ℚ) * ((weightLookup weights p.1).getD 1))).sum,
       (us.filter (fun p => decide (0 < p.2))).map (fun p => p.1)) := by
  rw [calcBase, calcBase_foldl_aux weights us 0 []]
  rw [zero_add, List.nil_append]

/-- C10: a category absent from `category_weights` — in particular every
`Custom` category under the default scorer — contributes to the base
score with default weight exactly 1, and still enters
`active_categories` whenever its raw score is positive. -/
theorem default_weight_for_missing_category (us : List (RepIDCategory × Nat))
    (name : String) (s : Nat) (hmem : (RepIDCategory.Custom name, s) ∈ us)
    (hs : 0 < s) (ts tw : Nat) :
    weightLookup HierarchicalScorer.new.category_weights
      (RepIDCategory.Custom name) = none ∧
    (weightLookup HierarchicalScorer.new.category_weights
      (RepIDCategory.Custom name)).getD 1 = 1 ∧
    (calcBase HierarchicalScorer.new.category_weights us).1 =
      ((us.filter (fun p => decide (0 < p.2))).map
        (fun p => (p.2 : ℚ) *
          ((weightLookup HierarchicalScorer.new.category_weights p.1).getD 1))).sum ∧
    RepIDCategory.Custom name ∈
      (calculateScore HierarchicalScorer.new us ts tw).active_categories := by
  have hnone : weightLookup HierarchicalScorer.new.category_weights
      (RepIDCategory.Custom name) = none := by
    rw [HierarchicalScorer.new, weightLookup]
    simp [List.find?]
  refine ⟨hnone, by rw [hnone]; rfl, ?_, ?_⟩
  · rw [calcBase_spec]
  · show RepIDCategory.Custom name ∈
      (calcBase HierarchicalScorer.new.category_weights us).2
    rw [calcBase_spec]
    exact List.mem_map.2 ⟨(RepIDCategory.Custom name, s),
      List.mem_filter.2 ⟨hmem, by
        rw [decide_eq_true_eq]
        exact hs⟩, rfl⟩

/-- Closed witness for `default_weight_for_missing_category` on the
single-entry score list `[(Custom "hyperdag", 5)]`. -/
theorem default_weight_for_missing_category_witness :
    weightLookup HierarchicalScorer.new.category_weights
      (RepIDCategory.Custom "hyperdag") = none ∧
    RepIDCategory.Custom "hyperdag" ∈
      (calculateScore HierarchicalScorer.new
        [(RepIDCategory.Custom "hyperdag", 5)] 0 0).active_categories := by
  have h := default_weight_for_missing_category
    [(RepIDCategory.Custom "hyperdag", 5)] "hyperdag" 5 (by simp) (by decide) 0 0
  exact ⟨h.1, h.2.2.2⟩

end HyperDag
